import Mathlib

/-!
# Verification of the BigQuery client's schema codec, diff builder and row encoding

Shallow embedding of the pure core of `google/cloud/bigquery/table.py`,
`dataset.py` and `client.py`: the recursive schema (de)serialization
(`_parse_schema_resource` / `_build_schema_resource`), mapping-to-row
projection (`Table.row_from_mapping`), bulk-insert row encoding
(`Table.insert_data`), the partial-update builder (`Client.update_dataset`)
and property-bag replacement (`Table._set_properties`,
`Dataset._set_properties`).

Python JSON-derived values are modelled by the inductive `JValue`.  Python's
`None` and JSON `null` are the same object in the source (the JSON is parsed
into Python objects), so both are `JValue.jnull` here.  Python `float(x)` and
`int(x)` coercions applied to wire values are represented symbolically by the
constructors `jfloatOf` / `jintOf` (their numeric content is irrelevant to
every property proved here; only key structure matters).  Python `dict`s are
insertion-ordered association lists with unique keys maintained by
`jdictSet` (assignment replaces in place, otherwise appends, exactly like
CPython's insertion-ordered dicts).
-/

/-- A Python value obtained from parsed JSON (plus the symbolic coercion
markers `jfloatOf`/`jintOf`, see module docstring). Objects are
insertion-ordered association lists, as CPython dicts are. -/
inductive JValue : Type where
  | jnull : JValue
  | jbool : Bool → JValue
  | jnum : Int → JValue
  | jstr : String → JValue
  | jfloatOf : JValue → JValue
  | jintOf : JValue → JValue
  | jarr : List JValue → JValue
  | jobj : List (JValue × JValue) → JValue
deriving Repr

namespace JValue

mutual

/-- Structural equality on `JValue` (Python `==` on these values). -/
def jeq : JValue → JValue → Bool
  | .jnull, .jnull => true
  | .jbool a, .jbool b => a == b
  | .jnum a, .jnum b => a == b
  | .jstr a, .jstr b => a == b
  | .jfloatOf a, .jfloatOf b => jeq a b
  | .jintOf a, .jintOf b => jeq a b
  | .jarr a, .jarr b => jeqList a b
  | .jobj a, .jobj b => jeqEntries a b
  | _, _ => false

/-- Elementwise equality on JSON arrays. -/
def jeqList : List JValue → List JValue → Bool
  | [], [] => true
  | a :: as, b :: bs => jeq a b && jeqList as bs
  | _, _ => false

/-- Pairwise equality on object entry lists. -/
def jeqEntries : List (JValue × JValue) → List (JValue × JValue) → Bool
  | [], [] => true
  | (k, v) :: ps, (k', v') :: qs => jeq k k' && jeq v v' && jeqEntries ps qs
  | _, _ => false

end

theorem jeq_iff_aux (n : Nat) :
    (∀ a b : JValue, sizeOf a ≤ n → (jeq a b = true ↔ a = b)) ∧
    (∀ as bs : List JValue, sizeOf as ≤ n → (jeqList as bs = true ↔ as = bs)) ∧
    (∀ ps qs : List (JValue × JValue), sizeOf ps ≤ n →
      (jeqEntries ps qs = true ↔ ps = qs)) := by
  induction n using Nat.strong_induction_on with
  | _ n ih =>
    have ihv : ∀ x y : JValue, sizeOf x < n → (jeq x y = true ↔ x = y) :=
      fun x y hx => (ih _ hx).1 x y (Nat.le_refl _)
    have ihl : ∀ xs ys : List JValue, sizeOf xs < n →
        (jeqList xs ys = true ↔ xs = ys) :=
      fun xs ys hx => (ih _ hx).2.1 xs ys (Nat.le_refl _)
    have ihe : ∀ ps qs : List (JValue × JValue), sizeOf ps < n →
        (jeqEntries ps qs = true ↔ ps = qs) :=
      fun ps qs hx => (ih _ hx).2.2 ps qs (Nat.le_refl _)
    refine ⟨?_, ?_, ?_⟩
    · intro a b hn
      cases a <;> cases b <;> simp [jeq] <;>
        (rename_i x y
         first
         | exact ihv x y (by simp at hn; omega)
         | exact ihl x y (by simp at hn; omega)
         | exact ihe x y (by simp at hn; omega))
    · intro as bs hn
      cases as with
      | nil => cases bs <;> simp [jeqList]
      | cons a as =>
        cases bs with
        | nil => simp [jeqList]
        | cons b bs =>
          have h1 := ihv a b (by simp at hn; omega)
          have h2 := ihl as bs (by simp at hn; omega)
          simp [jeqList, h1, h2]
    · intro ps qs hn
      cases ps with
      | nil => cases qs <;> simp [jeqEntries]
      | cons p ps =>
        cases qs with
        | nil => obtain ⟨k, v⟩ := p; simp [jeqEntries]
        | cons q qs =>
          obtain ⟨k, v⟩ := p
          obtain ⟨k', v'⟩ := q
          have h1 := ihv k k' (by simp at hn; omega)
          have h2 := ihv v v' (by simp at hn; omega)
          have h3 := ihe ps qs (by simp at hn; omega)
          simp [jeqEntries, h1, h2, h3]

theorem jeq_iff (a b : JValue) : jeq a b = true ↔ a = b :=
  (jeq_iff_aux (sizeOf a)).1 a b (Nat.le_refl _)

instance : DecidableEq JValue := fun a b =>
  decidable_of_iff (jeq a b = true) (jeq_iff a b)

/-- Python `d[k]` / `k in d` support: first binding of key `k` in the
association list (keys are unique in dicts built by the code below). -/
def jlookup (entries : List (JValue × JValue)) (k : JValue) : Option JValue :=
  match entries with
  | [] => none
  | (k', v) :: rest => if k' = k then some v else jlookup rest k

/-- Python `d[k] = v`: replace in place when the key exists (keeping its
insertion position), else append — CPython dict assignment. -/
def jdictSet (entries : List (JValue × JValue)) (k v : JValue) :
    List (JValue × JValue) :=
  match entries with
  | [] => [(k, v)]
  | (k', v') :: rest =>
      if k' = k then (k, v) :: rest else (k', v') :: jdictSet rest k v

end JValue

/-- A binding found by `jlookup` is a strict subterm of the entry list. -/
theorem jlookup_sizeOf_lt {entries : List (JValue × JValue)} {k v : JValue}
    (h : JValue.jlookup entries k = some v) : sizeOf v < sizeOf entries := by
  induction entries with
  | nil => simp [JValue.jlookup] at h
  | cons p rest ih =>
    obtain ⟨k', v'⟩ := p
    rw [JValue.jlookup] at h
    split at h
    · injection h with h
      subst h
      simp
      omega
    · have := ih h
      simp
      omega

/-- `google.cloud.bigquery.schema.SchemaField` as used by `table.py`:
constructed as `SchemaField(name, field_type, mode, description, fields)` and
read back through the five attributes of the same names.  The attribute
values are arbitrary Python values (the source performs no type checks on
them), hence `JValue`. -/
inductive SchemaField : Type where
  | mk (name field_type mode description : JValue) (fields : List SchemaField)
deriving Repr

namespace SchemaField

def name : SchemaField → JValue
  | .mk n _ _ _ _ => n

def field_type : SchemaField → JValue
  | .mk _ t _ _ _ => t

def mode : SchemaField → JValue
  | .mk _ _ m _ _ => m

def description : SchemaField → JValue
  | .mk _ _ _ d _ => d

def fields : SchemaField → List SchemaField
  | .mk _ _ _ _ fs => fs

end SchemaField

mutual

/-- One iteration of the loop body of `_parse_schema_resource`
(`table.py`): from a JSON field object build a `SchemaField`, where
`sub_fields = _parse_schema_resource(r_field)` is inlined (absent
`fields` key gives the empty child list, a present `fields` array is
parsed recursively).  `none` models a raised exception (`KeyError` on a
missing `name`/`type` key, or a non-iterable `fields` value / non-dict
field object). -/
def parseField : JValue → Option SchemaField
  | .jobj entries =>
      match JValue.jlookup entries (.jstr "name"),
            JValue.jlookup entries (.jstr "type") with
      | some nm, some ftype =>
          let mode := (JValue.jlookup entries (.jstr "mode")).getD (.jstr "NULLABLE")
          let description := (JValue.jlookup entries (.jstr "description")).getD .jnull
          match hf : JValue.jlookup entries (.jstr "fields") with
          | none => some (.mk nm ftype mode description [])
          | some (.jarr fs) =>
              (parseFieldList fs).map fun subs => .mk nm ftype mode description subs
          | some _ => none
      | _, _ => none
  | _ => none
termination_by f => sizeOf f
decreasing_by
  · have := jlookup_sizeOf_lt hf
    simp at this ⊢
    omega

/-- The loop of `_parse_schema_resource` over the objects of a `fields`
array, in order; the first failure aborts (a raised exception). -/
def parseFieldList : List JValue → Option (List SchemaField)
  | [] => some []
  | f :: rest => do
      let fld ← parseField f
      let flds ← parseFieldList rest
      pure (fld :: flds)
termination_by fs => sizeOf fs
decreasing_by
  all_goals simp
  all_goals omega

end

/-- `_parse_schema_resource` (`table.py`): a mapping without a `fields`
key decodes to the empty schema `[]`; otherwise each element of the
`fields` array is decoded in order. -/
def parseSchemaResource : JValue → Option (List SchemaField)
  | .jobj entries =>
      match JValue.jlookup entries (.jstr "fields") with
      | none => some []
      | some (.jarr fs) => parseFieldList fs
      | some _ => none
  | _ => none

mutual

/-- The loop body of `_build_schema_resource` (`table.py`): emit
`name`, `type`, `mode` always (in that insertion order), `description`
only when it is not `None`, and `fields` only when the child list is
non-empty. -/
def buildField : SchemaField → JValue
  | .mk nm ftype mode description fs =>
      .jobj ([(.jstr "name", nm), (.jstr "type", ftype), (.jstr "mode", mode)] ++
        (if description ≠ .jnull then [(.jstr "description", description)] else []) ++
        (match fs with
         | [] => []
         | _ :: _ => [(.jstr "fields", .jarr (buildFieldList fs))]))

/-- `_build_schema_resource` (`table.py`): the `infos` list, one JSON
object per field, in order. -/
def buildFieldList : List SchemaField → List JValue
  | [] => []
  | fld :: rest => buildField fld :: buildFieldList rest

end

mutual

/-- Canonical wire form of a single schema field object, matching what
`_build_schema_resource` can emit: keys exactly `name`, `type`, `mode`
in that order, then optionally a non-null `description`, then
optionally a non-empty `fields` array of canonical field objects. -/
def canonicalField : JValue → Bool
  | .jobj ((.jstr "name", _) :: (.jstr "type", _) :: (.jstr "mode", _) :: rest) =>
      canonicalTail rest
  | _ => false

/-- The optional part of a canonical field object after `name`, `type`,
`mode`: nothing, a non-null `description`, a non-empty canonical
`fields` array, or both in that order. -/
def canonicalTail : List (JValue × JValue) → Bool
  | [] => true
  | [(.jstr "description", d)] => decide (d ≠ .jnull)
  | [(.jstr "fields", .jarr (f :: fs))] => canonicalFieldList (f :: fs)
  | [(.jstr "description", d), (.jstr "fields", .jarr (f :: fs))] =>
      decide (d ≠ .jnull) && canonicalFieldList (f :: fs)
  | _ => false

/-- All elements of a `fields` array are canonical field objects. -/
def canonicalFieldList : List JValue → Bool
  | [] => true
  | f :: rest => canonicalField f && canonicalFieldList rest

end

/-- A canonical field object starts with `name`, `type`, `mode` bindings
followed by a canonical optional tail. -/
theorem canonicalField_shape {f : JValue} (h : canonicalField f = true) :
    ∃ nm t m rest,
      f = .jobj ((.jstr "name", nm) :: (.jstr "type", t) :: (.jstr "mode", m) :: rest) ∧
      canonicalTail rest = true := by
  rw [canonicalField.eq_def] at h
  split at h
  · rename_i nm t m rest
    exact ⟨nm, t, m, rest, rfl, h⟩
  · simp at h

/-- `buildFieldList` of a non-empty list is non-empty (it has one output
object per input field). -/
theorem buildFieldList_eq_nil {flds : List SchemaField} :
    buildFieldList flds = [] → flds = [] := by
  cases flds with
  | nil => intro _; rfl
  | cons fld rest => simp [buildFieldList]

/-- Round-trip of the schema codec, mutually over one field object and a
list of field objects: a canonical field object decodes successfully and
re-encodes to itself. -/
theorem schema_roundtrip_aux (n : Nat) :
    (∀ f : JValue, sizeOf f ≤ n → canonicalField f = true →
      ∃ fld, parseField f = some fld ∧ buildField fld = f) ∧
    (∀ fs : List JValue, sizeOf fs ≤ n → canonicalFieldList fs = true →
      ∃ flds, parseFieldList fs = some flds ∧ buildFieldList flds = fs) := by
  induction n using Nat.strong_induction_on with
  | _ n ih =>
    have ihl : ∀ fs : List JValue, sizeOf fs < n → canonicalFieldList fs = true →
        ∃ flds, parseFieldList fs = some flds ∧ buildFieldList flds = fs :=
      fun fs hf => (ih _ hf).2 fs (Nat.le_refl _)
    have ihf : ∀ f : JValue, sizeOf f < n → canonicalField f = true →
        ∃ fld, parseField f = some fld ∧ buildField fld = f :=
      fun f hf => (ih _ hf).1 f (Nat.le_refl _)
    constructor
    · intro f hn hc
      obtain ⟨nm, t, m, rest, rfl, htail⟩ := canonicalField_shape hc
      rw [canonicalTail.eq_def] at htail
      split at htail
      · -- rest = []
        refine ⟨.mk nm t m .jnull [], ?_, ?_⟩
        · simp [parseField, JValue.jlookup]
        · simp [buildField]
      · -- rest = [(description, d)], d ≠ null
        rename_i d
        simp only [decide_eq_true_eq] at htail
        refine ⟨.mk nm t m d [], ?_, ?_⟩
        · simp [parseField, JValue.jlookup]
        · simp [buildField, htail]
      · -- rest = [(fields, jarr (f' :: fs'))]
        rename_i f' fs'
        have hsz : sizeOf (f' :: fs') < n := by
          simp at hn
          simp
          omega
        obtain ⟨subs, hp, hb⟩ := ihl (f' :: fs') hsz htail
        have hsne : subs ≠ [] := by
          intro hnil
          rw [hnil] at hb
          simp [buildFieldList] at hb
        refine ⟨.mk nm t m .jnull subs, ?_, ?_⟩
        · simp [parseField, JValue.jlookup, hp]
        · cases subs with
          | nil => exact absurd rfl hsne
          | cons s ss => simp [buildField, buildFieldList] at hb ⊢; exact hb
      · -- rest = [(description, d), (fields, jarr (f' :: fs'))]
        rename_i d f' fs'
        simp only [Bool.and_eq_true, decide_eq_true_eq] at htail
        obtain ⟨hd, hfs⟩ := htail
        have hsz : sizeOf (f' :: fs') < n := by
          simp at hn
          simp
          omega
        obtain ⟨subs, hp, hb⟩ := ihl (f' :: fs') hsz hfs
        have hsne : subs ≠ [] := by
          intro hnil
          rw [hnil] at hb
          simp [buildFieldList] at hb
        refine ⟨.mk nm t m d subs, ?_, ?_⟩
        · simp [parseField, JValue.jlookup, hp]
        · cases subs with
          | nil => exact absurd rfl hsne
          | cons s ss => simp [buildField, buildFieldList, hd] at hb ⊢; exact hb
      · simp at htail
    · intro fs hn hc
      cases fs with
      | nil => exact ⟨[], by simp [parseFieldList], by simp [buildFieldList]⟩
      | cons f rest =>
        rw [canonicalFieldList] at hc
        simp only [Bool.and_eq_true] at hc
        obtain ⟨hcf, hcr⟩ := hc
        have h1 : sizeOf f < n := by simp at hn; omega
        have h2 : sizeOf rest < n := by simp at hn; omega
        obtain ⟨fld, hpf, hbf⟩ := ihf f h1 hcf
        obtain ⟨flds, hpl, hbl⟩ := ihl rest h2 hcr
        exact ⟨fld :: flds, by simp [parseFieldList, hpf, hpl],
          by simp [buildFieldList, hbf, hbl]⟩

/-- C1 (counterexample): the claim admits canonical inputs in which the
optional `mode` key is omitted, but `_build_schema_resource` always
emits `mode` (defaulted to `NULLABLE` by `_parse_schema_resource`), so
encode-after-decode of a mode-less field object does not reproduce the
original `fields` array. -/
theorem schema_roundtrip_mode_omitted_cex :
    parseSchemaResource (.jobj [(.jstr "fields",
        .jarr [.jobj [(.jstr "name", .jstr "a"), (.jstr "type", .jstr "STRING")]])]) =
      some [.mk (.jstr "a") (.jstr "STRING") (.jstr "NULLABLE") .jnull []] ∧
    buildFieldList [.mk (.jstr "a") (.jstr "STRING") (.jstr "NULLABLE") .jnull []] ≠
      [.jobj [(.jstr "name", .jstr "a"), (.jstr "type", .jstr "STRING")]] := by
  constructor
  · simp [parseSchemaResource, parseFieldList, parseField, JValue.jlookup]
  · simp [buildFieldList, buildField]

/-- C1 (amended): for every canonical schema JSON value — each field
object carrying `name`, `type` and an explicit `mode` in that fixed key
order, `description` present only when non-null, `fields` present only
when non-empty, at any nesting depth — decoding with
`_parse_schema_resource` succeeds and re-encoding with
`_build_schema_resource` reproduces the original `fields` array. -/
theorem schema_roundtrip_canonical (fs : List JValue)
    (h : canonicalFieldList fs = true) :
    ∃ flds, parseSchemaResource (.jobj [(.jstr "fields", .jarr fs)]) = some flds ∧
      buildFieldList flds = fs := by
  have hmain := (schema_roundtrip_aux (sizeOf fs)).2 fs (Nat.le_refl _) h
  simpa [parseSchemaResource, JValue.jlookup] using hmain

/-- C1 (witness): the round-trip theorem applied to a concrete canonical
schema with RECORD fields nested two levels deep. -/
theorem schema_roundtrip_canonical_witness :
    canonicalFieldList
        [.jobj [(.jstr "name", .jstr "r"), (.jstr "type", .jstr "RECORD"),
                (.jstr "mode", .jstr "NULLABLE"),
                (.jstr "fields", .jarr
                  [.jobj [(.jstr "name", .jstr "s"), (.jstr "type", .jstr "RECORD"),
                          (.jstr "mode", .jstr "REPEATED"),
                          (.jstr "fields", .jarr
                            [.jobj [(.jstr "name", .jstr "x"),
                                    (.jstr "type", .jstr "STRING"),
                                    (.jstr "mode", .jstr "REQUIRED")]])]])]] = true ∧
    ∃ flds,
      parseSchemaResource (.jobj [(.jstr "fields", .jarr
        [.jobj [(.jstr "name", .jstr "r"), (.jstr "type", .jstr "RECORD"),
                (.jstr "mode", .jstr "NULLABLE"),
                (.jstr "fields", .jarr
                  [.jobj [(.jstr "name", .jstr "s"), (.jstr "type", .jstr "RECORD"),
                          (.jstr "mode", .jstr "REPEATED"),
                          (.jstr "fields", .jarr
                            [.jobj [(.jstr "name", .jstr "x"),
                                    (.jstr "type", .jstr "STRING"),
                                    (.jstr "mode", .jstr "REQUIRED")]])]])]])]) =
        some flds ∧
      buildFieldList flds =
        [.jobj [(.jstr "name", .jstr "r"), (.jstr "type", .jstr "RECORD"),
                (.jstr "mode", .jstr "NULLABLE"),
                (.jstr "fields", .jarr
                  [.jobj [(.jstr "name", .jstr "s"), (.jstr "type", .jstr "RECORD"),
                          (.jstr "mode", .jstr "REPEATED"),
                          (.jstr "fields", .jarr
                            [.jobj [(.jstr "name", .jstr "x"),
                                    (.jstr "type", .jstr "STRING"),
                                    (.jstr "mode", .jstr "REQUIRED")]])]])]] :=
  ⟨by decide, schema_roundtrip_canonical _ (by decide)⟩

/-- C2: `_parse_schema_resource` on any mapping lacking a `fields` key
yields the empty schema `[]` ("no schema"), while a schema holding one
RECORD field with an empty `fields` array decodes to a one-element field
list — a different value, so the two cases are distinguishable. -/
theorem parse_no_fields_key_empty (entries : List (JValue × JValue))
    (h : JValue.jlookup entries (.jstr "fields") = none) :
    parseSchemaResource (.jobj entries) = some [] ∧
    parseSchemaResource (.jobj [(.jstr "fields", .jarr
        [.jobj [(.jstr "name", .jstr "r"), (.jstr "type", .jstr "RECORD"),
                (.jstr "mode", .jstr "NULLABLE"), (.jstr "fields", .jarr [])]])]) =
      some [.mk (.jstr "r") (.jstr "RECORD") (.jstr "NULLABLE") .jnull []] ∧
    some [SchemaField.mk (.jstr "r") (.jstr "RECORD") (.jstr "NULLABLE") .jnull []] ≠
      some ([] : List SchemaField) := by
  refine ⟨?_, ?_, ?_⟩
  · simp [parseSchemaResource, h]
  · simp [parseSchemaResource, parseFieldList, parseField, JValue.jlookup]
  · simp

/-- C2 (witness): the theorem applied to a mapping with no `fields` key. -/
theorem parse_no_fields_key_empty_witness :
    parseSchemaResource (.jobj [(.jstr "tableReference", .jnull)]) = some [] :=
  (parse_no_fields_key_empty [(.jstr "tableReference", .jnull)] (by decide)).1

/-- The exceptions raised by the row-handling paths of `table.py`:
`ValueError(_TABLE_HAS_NO_SCHEMA)`, `KeyError` from `mapping[field.name]`,
`ValueError('Unknown field mode: ...')`, and `IndexError` from
`row_ids[index]`. -/
inductive TableError : Type where
  | tableHasNoSchema : TableError
  | missingRequiredField : JValue → TableError
  | unknownFieldMode : JValue → TableError
  | rowIdsIndexError : TableError
deriving DecidableEq, Repr

/-- The loop body of `Table.row_from_mapping`: one value per schema
field, REQUIRED reads `mapping[field.name]` (raising when absent),
REPEATED defaults to the empty tuple, NULLABLE defaults to `None`, any
other mode raises `ValueError`. -/
def projectField (mapping : List (JValue × JValue)) (field : SchemaField) :
    Except TableError JValue :=
  if field.mode = .jstr "REQUIRED" then
    match JValue.jlookup mapping field.name with
    | some v => .ok v
    | none => .error (.missingRequiredField field.name)
  else if field.mode = .jstr "REPEATED" then
    .ok ((JValue.jlookup mapping field.name).getD (.jarr []))
  else if field.mode = .jstr "NULLABLE" then
    .ok ((JValue.jlookup mapping field.name).getD .jnull)
  else
    .error (.unknownFieldMode field.mode)

/-- The loop of `Table.row_from_mapping` over the schema, in declared
order; the first raised exception aborts. -/
def projectFields (mapping : List (JValue × JValue)) :
    List SchemaField → Except TableError (List JValue)
  | [] => .ok []
  | field :: rest => do
      let v ← projectField mapping field
      let vs ← projectFields mapping rest
      pure (v :: vs)

/-- `Table.row_from_mapping` (`table.py`): raises when the schema is
empty, else projects the mapping through the schema in order. -/
def row_from_mapping (schema : List SchemaField)
    (mapping : List (JValue × JValue)) : Except TableError (List JValue) :=
  if schema.length = 0 then .error .tableHasNoSchema
  else projectFields mapping schema

theorem except_bind_ok {ε α β : Type} (a : α) (f : α → Except ε β) :
    (Except.ok a >>= f) = f a := rfl

theorem except_bind_error {ε α β : Type} (e : ε) (f : α → Except ε β) :
    ((Except.error e : Except ε α) >>= f) = .error e := rfl

theorem except_map_ok {ε α β : Type} (g : α → β) (a : α) :
    (g <$> (Except.ok a : Except ε α)) = .ok (g a) := rfl

theorem except_map_error {ε α β : Type} (g : α → β) (e : ε) :
    (g <$> (Except.error e : Except ε α)) = .error e := rfl

theorem except_pure_eq {ε α : Type} (a : α) : (pure a : Except ε α) = .ok a := rfl

/-- The three cardinality modes `row_from_mapping` understands. -/
def allowedMode (m : JValue) : Prop :=
  m = .jstr "REQUIRED" ∨ m = .jstr "REPEATED" ∨ m = .jstr "NULLABLE"

instance (m : JValue) : Decidable (allowedMode m) := by
  unfold allowedMode
  infer_instance

/-- A field with an allowed mode projects to its looked-up value with the
mode's default. -/
theorem projectField_ok_of_allowed (mapping : List (JValue × JValue))
    (g : SchemaField) (hall : allowedMode g.mode)
    (hreq : g.mode = .jstr "REQUIRED" → (JValue.jlookup mapping g.name).isSome = true) :
    projectField mapping g = .ok
      (if g.mode = .jstr "REPEATED" then (JValue.jlookup mapping g.name).getD (.jarr [])
       else (JValue.jlookup mapping g.name).getD .jnull) := by
  rcases hall with h | h | h
  · have hs := hreq h
    rw [projectField, if_pos h]
    cases hl : JValue.jlookup mapping g.name with
    | none => rw [hl] at hs; simp at hs
    | some v => simp [h, hl]
  · simp [projectField, h]
  · simp [projectField, h]

/-- A field with a mode outside the allowed three projects to the
`Unknown field mode` error. -/
theorem projectField_error_of_not_allowed (mapping : List (JValue × JValue))
    (g : SchemaField) (hnot : ¬ allowedMode g.mode) :
    projectField mapping g = .error (.unknownFieldMode g.mode) := by
  rw [allowedMode] at hnot
  push_neg at hnot
  obtain ⟨h1, h2, h3⟩ := hnot
  simp [projectField, h1, h2, h3]

/-- When every mode is allowed and every REQUIRED name is present, the
projection succeeds and follows schema order with per-mode defaults. -/
theorem projectFields_ok (mapping : List (JValue × JValue)) :
    ∀ schema : List SchemaField,
    (∀ f ∈ schema, allowedMode f.mode) →
    (∀ f ∈ schema, f.mode = .jstr "REQUIRED" →
      (JValue.jlookup mapping f.name).isSome = true) →
    projectFields mapping schema = .ok (schema.map fun f =>
      if f.mode = .jstr "REPEATED" then (JValue.jlookup mapping f.name).getD (.jarr [])
      else (JValue.jlookup mapping f.name).getD .jnull) := by
  intro schema
  induction schema with
  | nil => intro _ _; simp [projectFields]
  | cons f rest ih =>
    intro hmodes hreq
    have hv := projectField_ok_of_allowed mapping f (hmodes f (by simp))
      (hreq f (by simp))
    have htail := ih (fun g hg => hmodes g (by simp [hg]))
      (fun g hg => hreq g (by simp [hg]))
    simp [projectFields, hv, htail, except_bind_ok]

/-- A REQUIRED field absent from the mapping makes the projection fail
with the missing-required-field error (for the first such field in
schema order). -/
theorem projectFields_missing (mapping : List (JValue × JValue)) :
    ∀ schema : List SchemaField,
    (∀ f ∈ schema, allowedMode f.mode) →
    (∃ f ∈ schema, f.mode = .jstr "REQUIRED" ∧
      JValue.jlookup mapping f.name = none) →
    ∃ nm, projectFields mapping schema = .error (.missingRequiredField nm) := by
  intro schema
  induction schema with
  | nil => intro _ hex; simp at hex
  | cons f rest ih =>
    intro hmodes hex
    by_cases hf : f.mode = .jstr "REQUIRED" ∧ JValue.jlookup mapping f.name = none
    · refine ⟨f.name, ?_⟩
      have : projectField mapping f = .error (.missingRequiredField f.name) := by
        rw [projectField, if_pos hf.1, hf.2]
      simp [projectFields, this, except_bind_error]
    · have hfok : ∃ v, projectField mapping f = .ok v := by
        refine ⟨_, projectField_ok_of_allowed mapping f (hmodes f (by simp)) ?_⟩
        intro hmode
        cases hl : JValue.jlookup mapping f.name with
        | none => exact absurd ⟨hmode, hl⟩ hf
        | some v => rfl
      obtain ⟨v, hfok⟩ := hfok
      have hex' : ∃ g ∈ rest, g.mode = .jstr "REQUIRED" ∧
          JValue.jlookup mapping g.name = none := by
        obtain ⟨g, hg, hgm⟩ := hex
        rcases List.mem_cons.mp hg with rfl | hg'
        · exact absurd hgm hf
        · exact ⟨g, hg', hgm⟩
      obtain ⟨nm, herr⟩ := ih (fun g hg => hmodes g (by simp [hg])) hex'
      exact ⟨nm, by simp [projectFields, hfok, herr, except_bind_ok]⟩

/-- C4: `row_from_mapping` on a non-empty schema whose modes are all
among REQUIRED/REPEATED/NULLABLE returns, in declared schema order, the
mapped value for each field, with a REPEATED field absent from the
mapping contributing the empty sequence and a NULLABLE field absent
contributing null — provided every REQUIRED field is present; when some
REQUIRED field is absent the call fails with a missing-required-field
error instead. -/
theorem row_from_mapping_spec (schema : List SchemaField)
    (mapping : List (JValue × JValue)) (hne : schema.length ≠ 0)
    (hmodes : ∀ f ∈ schema, allowedMode f.mode) :
    ((∀ f ∈ schema, f.mode = .jstr "REQUIRED" →
        (JValue.jlookup mapping f.name).isSome = true) →
      row_from_mapping schema mapping = .ok (schema.map fun f =>
        if f.mode = .jstr "REPEATED" then (JValue.jlookup mapping f.name).getD (.jarr [])
        else (JValue.jlookup mapping f.name).getD .jnull)) ∧
    ((∃ f ∈ schema, f.mode = .jstr "REQUIRED" ∧
        JValue.jlookup mapping f.name = none) →
      ∃ nm, row_from_mapping schema mapping = .error (.missingRequiredField nm)) := by
  constructor
  · intro hreq
    rw [row_from_mapping, if_neg hne]
    exact projectFields_ok mapping schema hmodes hreq
  · intro hex
    obtain ⟨nm, herr⟩ := projectFields_missing mapping schema hmodes hex
    exact ⟨nm, by rw [row_from_mapping, if_neg hne]; exact herr⟩

/-- C4 (witness): on schema [REQUIRED "a", REPEATED "b", NULLABLE "c"]
and mapping containing only "a" ↦ 1, the row is (1, (), None); and with
"a" absent the call fails with the missing-required-field error. -/
theorem row_from_mapping_spec_witness :
    row_from_mapping
      [.mk (.jstr "a") (.jstr "INTEGER") (.jstr "REQUIRED") .jnull [],
       .mk (.jstr "b") (.jstr "INTEGER") (.jstr "REPEATED") .jnull [],
       .mk (.jstr "c") (.jstr "INTEGER") (.jstr "NULLABLE") .jnull []]
      [(.jstr "a", .jnum 1)] = .ok [.jnum 1, .jarr [], .jnull] ∧
    (∃ nm, row_from_mapping
      [.mk (.jstr "a") (.jstr "INTEGER") (.jstr "REQUIRED") .jnull [],
       .mk (.jstr "b") (.jstr "INTEGER") (.jstr "REPEATED") .jnull [],
       .mk (.jstr "c") (.jstr "INTEGER") (.jstr "NULLABLE") .jnull []]
      [] = .error (.missingRequiredField nm)) := by
  constructor
  · have h := (row_from_mapping_spec
      [.mk (.jstr "a") (.jstr "INTEGER") (.jstr "REQUIRED") .jnull [],
       .mk (.jstr "b") (.jstr "INTEGER") (.jstr "REPEATED") .jnull [],
       .mk (.jstr "c") (.jstr "INTEGER") (.jstr "NULLABLE") .jnull []]
      [(.jstr "a", .jnum 1)] (by decide) (by decide)).1 (by decide)
    simpa [SchemaField.mode, SchemaField.name, JValue.jlookup] using h
  · exact (row_from_mapping_spec
      [.mk (.jstr "a") (.jstr "INTEGER") (.jstr "REQUIRED") .jnull [],
       .mk (.jstr "b") (.jstr "INTEGER") (.jstr "REPEATED") .jnull [],
       .mk (.jstr "c") (.jstr "INTEGER") (.jstr "NULLABLE") .jnull []]
      [] (by decide) (by decide)).2
      ⟨.mk (.jstr "a") (.jstr "INTEGER") (.jstr "REQUIRED") .jnull [],
        by simp, by decide, by decide⟩

/-- When every REQUIRED field is present, the projection fails with the
unknown-field-mode error of the first field whose mode is outside the
allowed three. -/
theorem projectFields_unknown_mode (mapping : List (JValue × JValue)) :
    ∀ (schema : List SchemaField) (f : SchemaField),
    schema.find? (fun g => !(decide (allowedMode g.mode))) = some f →
    (∀ g ∈ schema, g.mode = .jstr "REQUIRED" →
      (JValue.jlookup mapping g.name).isSome = true) →
    projectFields mapping schema = .error (.unknownFieldMode f.mode) := by
  intro schema
  induction schema with
  | nil => intro f hfind; simp [List.find?] at hfind
  | cons g rest ih =>
    intro f hfind hreq
    rw [List.find?] at hfind
    by_cases hall : allowedMode g.mode
    · simp [hall] at hfind
      have hv := projectField_ok_of_allowed mapping g hall (hreq g (by simp))
      have htail := ih f hfind (fun x hx => hreq x (by simp [hx]))
      simp [projectFields, hv, htail, except_bind_ok]
    · simp [hall] at hfind
      subst hfind
      have hv := projectField_error_of_not_allowed mapping g hall
      simp [projectFields, hv, except_bind_error]

/-- C5: if some schema field's mode lies outside REQUIRED/REPEATED/
REPEATED/NULLABLE, `row_from_mapping` fails with the unknown-field-mode
error carrying that field's mode (the first such field in schema order;
every REQUIRED field is assumed present so that the earlier
missing-required check cannot fire first), rather than defaulting. -/
theorem row_from_mapping_unknown_mode (schema : List SchemaField)
    (mapping : List (JValue × JValue)) (f : SchemaField)
    (hne : schema.length ≠ 0)
    (hfind : schema.find? (fun g => !(decide (allowedMode g.mode))) = some f)
    (hreq : ∀ g ∈ schema, g.mode = .jstr "REQUIRED" →
      (JValue.jlookup mapping g.name).isSome = true) :
    row_from_mapping schema mapping = .error (.unknownFieldMode f.mode) := by
  rw [row_from_mapping, if_neg hne]
  exact projectFields_unknown_mode mapping schema f hfind hreq

/-- C5 (witness): a field with mode "BOGUS" makes `row_from_mapping`
fail with the unknown-field-mode error for "BOGUS". -/
theorem row_from_mapping_unknown_mode_witness :
    row_from_mapping [.mk (.jstr "a") (.jstr "STRING") (.jstr "BOGUS") .jnull []]
      [(.jstr "a", .jnum 1)] =
      .error (.unknownFieldMode (.jstr "BOGUS")) := by
  have h := row_from_mapping_unknown_mode
    [.mk (.jstr "a") (.jstr "STRING") (.jstr "BOGUS") .jnull []]
    [(.jstr "a", .jnum 1)]
    (.mk (.jstr "a") (.jstr "STRING") (.jstr "BOGUS") .jnull [])
    (by decide) (by rfl) (by decide)
  simpa [SchemaField.mode] using h

/-- The per-row encoding loop of `Table.insert_data`: `row_info` built by
zipping the schema with the row positionally (`zip(self._schema, row)` —
silently truncating to the shorter of the two) and storing each value
under its field name, converted when the type has a converter.  `conv t`
models `_SCALAR_VALUE_TO_JSON_ROW.get(t)`; that table lives in
`google/cloud/bigquery/_helpers.py`, outside this snapshot, so it is a
parameter here. -/
def rowJson (conv : JValue → Option (JValue → JValue)) (schema : List SchemaField)
    (row : List JValue) : List (JValue × JValue) :=
  (List.zip schema row).foldl
    (fun acc fv =>
      let value := match conv fv.1.field_type with
        | none => fv.2
        | some g => g fv.2
      JValue.jdictSet acc fv.1.name value)
    []

/-- The `rows_info` loop of `Table.insert_data`: one `json` object per
row (plus `insertId` from `row_ids[index]` when `row_ids` was passed;
an out-of-range index raises `IndexError`). -/
def buildRowsInfo (conv : JValue → Option (JValue → JValue))
    (schema : List SchemaField) (row_ids : Option (List JValue)) :
    Nat → List (List JValue) → Except TableError (List JValue)
  | _, [] => .ok []
  | index, row :: rest => do
      let info := [(JValue.jstr "json", JValue.jobj (rowJson conv schema row))]
      let info ← match row_ids with
        | none => pure info
        | some ids =>
            match ids.get? index with
            | some rid => pure (info ++ [(JValue.jstr "insertId", rid)])
            | none => (.error .rowIdsIndexError : Except TableError _)
      let tail ← buildRowsInfo conv schema row_ids (index + 1) rest
      pure (JValue.jobj info :: tail)

/-- `Table.insert_data` (`table.py`) up to the request: raises when the
schema is empty, else builds the `data` payload — `rows` first, then the
three optional flags in source order.  The HTTP POST consumes this
payload unchanged. -/
def insert_data (conv : JValue → Option (JValue → JValue))
    (schema : List SchemaField) (rows : List (List JValue))
    (row_ids : Option (List JValue))
    (skip_invalid_rows ignore_unknown_values template_suffix : Option JValue) :
    Except TableError JValue :=
  if schema.length = 0 then .error .tableHasNoSchema
  else do
    let rows_info ← buildRowsInfo conv schema row_ids 0 rows
    let data := [(JValue.jstr "rows", JValue.jarr rows_info)]
    let data := match skip_invalid_rows with
      | none => data
      | some v => JValue.jdictSet data (.jstr "skipInvalidRows") v
    let data := match ignore_unknown_values with
      | none => data
      | some v => JValue.jdictSet data (.jstr "ignoreUnknownValues") v
    let data := match template_suffix with
      | none => data
      | some v => JValue.jdictSet data (.jstr "templateSuffix") v
    pure (.jobj data)

/-- Without `row_ids`, the rows loop never fails and encodes every row
through the positional zip. -/
theorem buildRowsInfo_none (conv : JValue → Option (JValue → JValue))
    (schema : List SchemaField) :
    ∀ (rows : List (List JValue)) (index : Nat),
    buildRowsInfo conv schema none index rows =
      .ok (rows.map fun row =>
        .jobj [(JValue.jstr "json", JValue.jobj (rowJson conv schema row))]) := by
  intro rows
  induction rows with
  | nil => intro index; simp [buildRowsInfo]
  | cons row rest ih =>
    intro index
    simp [buildRowsInfo, ih (index + 1), except_bind_ok]

/-- `jdictSet` grows the dict by at most one binding. -/
theorem jdictSet_length_le (k v : JValue) :
    ∀ d : List (JValue × JValue),
    (JValue.jdictSet d k v).length ≤ d.length + 1 := by
  intro d
  induction d with
  | nil => simp [JValue.jdictSet]
  | cons p rest ih =>
    obtain ⟨k', v'⟩ := p
    rw [JValue.jdictSet]
    split
    · simp
    · simpa using Nat.succ_le_succ ih

/-- A fold whose step grows the accumulator by at most one element ends
at most `l.length` above where it started. -/
theorem foldl_length_le {α β : Type} (f : β → α → β) (len : β → Nat)
    (hf : ∀ acc x, len (f acc x) ≤ len acc + 1) :
    ∀ (l : List α) (acc : β), len (l.foldl f acc) ≤ len acc + l.length := by
  intro l
  induction l with
  | nil => intro acc; simp
  | cons x rest ih =>
    intro acc
    rw [List.foldl_cons]
    have h1 := ih (f acc x)
    have h2 := hf acc x
    simp only [List.length_cons]
    omega

/-- A row's encoded `json` object has at most `min` of the two arities
many bindings: the zip silently truncates to the shorter side. -/
theorem rowJson_length_le (conv : JValue → Option (JValue → JValue))
    (schema : List SchemaField) (row : List JValue) :
    (rowJson conv schema row).length ≤ min schema.length row.length := by
  have h := foldl_length_le
    (fun acc fv =>
      let value := match conv (SchemaField.field_type fv.1) with
        | none => fv.2
        | some g => g fv.2
      JValue.jdictSet acc (SchemaField.name fv.1) value)
    List.length
    (fun acc fv => jdictSet_length_le (SchemaField.name fv.1) _ acc)
    (List.zip schema row) []
  simpa [rowJson, List.length_zip] using h

/-- C3 (amended): `insert_data` performs no arity check at all — for any
rows, of matching arity or not, it succeeds (given a non-empty schema
and no `row_ids`), encoding each row by zipping it positionally with the
schema and silently ignoring the values (or schema fields) beyond the
shorter of the two; no mismatched row is rejected. -/
theorem insert_data_no_arity_check (conv : JValue → Option (JValue → JValue))
    (schema : List SchemaField) (rows : List (List JValue))
    (skip_invalid_rows ignore_unknown_values template_suffix : Option JValue)
    (hne : schema.length ≠ 0) :
    (∃ tail, insert_data conv schema rows none
        skip_invalid_rows ignore_unknown_values template_suffix =
      .ok (.jobj ((JValue.jstr "rows", JValue.jarr (rows.map fun row =>
        .jobj [(JValue.jstr "json", JValue.jobj (rowJson conv schema row))])) :: tail))) ∧
    (∀ row ∈ rows, (rowJson conv schema row).length ≤ min schema.length row.length) := by
  constructor
  · rw [insert_data, if_neg hne]
    rw [buildRowsInfo_none conv schema rows 0]
    rw [except_bind_ok]
    cases skip_invalid_rows with
    | none =>
      cases ignore_unknown_values with
      | none =>
        cases template_suffix with
        | none => exact ⟨[], by simp [except_pure_eq]⟩
        | some t => exact ⟨[(.jstr "templateSuffix", t)],
            by simp [JValue.jdictSet, except_pure_eq]⟩
      | some iv =>
        cases template_suffix with
        | none => exact ⟨[(.jstr "ignoreUnknownValues", iv)],
            by simp [JValue.jdictSet, except_pure_eq]⟩
        | some t => exact ⟨[(.jstr "ignoreUnknownValues", iv),
            (.jstr "templateSuffix", t)],
            by simp [JValue.jdictSet, except_pure_eq]⟩
    | some sv =>
      cases ignore_unknown_values with
      | none =>
        cases template_suffix with
        | none => exact ⟨[(.jstr "skipInvalidRows", sv)],
            by simp [JValue.jdictSet, except_pure_eq]⟩
        | some t => exact ⟨[(.jstr "skipInvalidRows", sv),
            (.jstr "templateSuffix", t)],
            by simp [JValue.jdictSet, except_pure_eq]⟩
      | some iv =>
        cases template_suffix with
        | none => exact ⟨[(.jstr "skipInvalidRows", sv),
            (.jstr "ignoreUnknownValues", iv)],
            by simp [JValue.jdictSet, except_pure_eq]⟩
        | some t => exact ⟨[(.jstr "skipInvalidRows", sv),
            (.jstr "ignoreUnknownValues", iv), (.jstr "templateSuffix", t)],
            by simp [JValue.jdictSet, except_pure_eq]⟩
  · intro row _
    exact rowJson_length_le conv schema row

/-- C3 (witness): the no-arity-check theorem applied to a concrete
mismatched row. -/
theorem insert_data_no_arity_check_witness :
    ∃ tail, insert_data (fun _ => none)
        [.mk (.jstr "a") (.jstr "STRING") (.jstr "NULLABLE") .jnull []]
        [[.jnum 1, .jnum 2]] none none none none =
      .ok (.jobj ((JValue.jstr "rows", JValue.jarr
        [.jobj [(JValue.jstr "json", JValue.jobj (rowJson (fun _ => none)
          [.mk (.jstr "a") (.jstr "STRING") (.jstr "NULLABLE") .jnull []]
          [.jnum 1, .jnum 2]))]]) :: tail)) :=
  (insert_data_no_arity_check (fun _ => none)
    [.mk (.jstr "a") (.jstr "STRING") (.jstr "NULLABLE") .jnull []]
    [[.jnum 1, .jnum 2]] none none none (by decide)).1

/-- C3 (counterexample): a row of arity 2 against a schema of arity 1 is
not rejected with any error — `insert_data` silently encodes it, keeping
only the zipped prefix (the value 2 is dropped), contradicting the claim
that mismatched-arity rows always fail with a SchemaMismatch error. -/
theorem insert_data_arity_mismatch_cex :
    [SchemaField.mk (.jstr "a") (.jstr "STRING") (.jstr "NULLABLE") .jnull []].length ≠
      [JValue.jnum 1, JValue.jnum 2].length ∧
    insert_data (fun _ => none)
        [.mk (.jstr "a") (.jstr "STRING") (.jstr "NULLABLE") .jnull []]
        [[.jnum 1, .jnum 2]] none none none none =
      .ok (.jobj [(JValue.jstr "rows", JValue.jarr
        [.jobj [(JValue.jstr "json", JValue.jobj [(.jstr "a", .jnum 1)])]])]) := by
  constructor
  · decide
  · simp [insert_data, buildRowsInfo, rowJson, JValue.jdictSet, except_bind_ok,
      SchemaField.name, SchemaField.field_type]

/-- C10: with an empty schema both `row_from_mapping` and `insert_data`
raise the "Table has no schema" ValueError before looking at the mapping
or the rows: the error is returned for every mapping and every rows
argument, and no payload is ever produced. -/
theorem schemaless_table_rejected (mapping : List (JValue × JValue))
    (conv : JValue → Option (JValue → JValue)) (rows : List (List JValue))
    (row_ids : Option (List JValue))
    (skip_invalid_rows ignore_unknown_values template_suffix : Option JValue) :
    row_from_mapping [] mapping = .error .tableHasNoSchema ∧
    insert_data conv [] rows row_ids
        skip_invalid_rows ignore_unknown_values template_suffix =
      .error .tableHasNoSchema := by
  constructor
  · simp [row_from_mapping]
  · simp [insert_data]

/-- The exception raised by `Client.update_dataset` when a name in
`fields` is not an attribute of the dataset:
`ValueError('No Dataset field %s')`. -/
inductive UpdateError : Type where
  | unknownField : String → UpdateError
deriving DecidableEq, Repr

/-- Python `str.capitalize`: first character uppercased, all remaining
characters lowercased (ASCII data here), independent of locale. -/
def pyCapitalize (s : String) : String :=
  match s.data with
  | [] => ""
  | c :: cs => String.mk (c.toUpper :: cs.map Char.toLower)

/-- Python `f.split('_')` on the character list: splitting at every
underscore, keeping empty words (so "a__b" gives ["a", "", "b"] and ""
gives [""]), exactly as CPython does for a one-character separator. -/
def pySplitUnderscore : List Char → List (List Char)
  | [] => [[]]
  | c :: rest =>
      match pySplitUnderscore rest with
      | [] => if c = '_' then [[], []] else [[c]]
      | w :: ws => if c = '_' then [] :: w :: ws else (c :: w) :: ws

/-- The snake-case → camelCase translation inlined in
`Client.update_dataset` (and in `Table._build_resource`):
`words = f.split('_')`, then
`words[0] + ''.join(map(str.capitalize, words[1:]))`. -/
def snakeToCamel (f : String) : String :=
  match (pySplitUnderscore f.data).map String.mk with
  | [] => ""
  | w :: ws => w ++ String.join (ws.map pyCapitalize)

/-- The body-building loop of `Client.update_dataset`: `partial` starts
empty; for each name `f` in `fields`, fail when the dataset has no such
attribute (`hasattr`), else store `getattr(dataset, f)` under the
camelCase key.  `attrs` models attribute lookup on the dataset
(`none` exactly when `hasattr` is false). -/
def buildPartial (attrs : String → Option JValue) :
    List String → List (JValue × JValue) →
    Except UpdateError (List (JValue × JValue))
  | [], acc => .ok acc
  | f :: rest, acc =>
      match attrs f with
      | none => .error (.unknownField f)
      | some v => buildPartial attrs rest
          (JValue.jdictSet acc (.jstr (snakeToCamel f)) v)

/-- The conditional-header logic of `Client.update_dataset`: an
`If-Match` header holding exactly the dataset's etag when
`dataset.etag is not None`, and no headers otherwise. -/
def updateHeaders (etag : JValue) : Option (List (JValue × JValue)) :=
  if etag ≠ .jnull then some [(.jstr "If-Match", etag)] else none

/-- Assigning a fresh key appends the binding at the end of the dict. -/
theorem jdictSet_of_not_mem (k v : JValue) :
    ∀ d : List (JValue × JValue), k ∉ d.map Prod.fst →
    JValue.jdictSet d k v = d ++ [(k, v)] := by
  intro d
  induction d with
  | nil => intro _; rfl
  | cons p rest ih =>
    intro hk
    obtain ⟨k', v'⟩ := p
    simp only [List.map_cons, List.mem_cons, not_or] at hk
    rw [JValue.jdictSet, if_neg (fun he => hk.1 he.symm), ih hk.2]
    simp

/-- When every changed name is a known attribute and the camelCase keys
are pairwise distinct, the body loop of `update_dataset` succeeds and
the body lists exactly the changed fields, in order, under their
camelCase keys with their current values. -/
theorem buildPartial_ok (attrs : String → Option JValue) :
    ∀ (fields : List String) (acc : List (JValue × JValue)),
    (∀ f ∈ fields, (attrs f).isSome = true) →
    List.Nodup (fields.map fun f => JValue.jstr (snakeToCamel f)) →
    (∀ f ∈ fields, (JValue.jstr (snakeToCamel f)) ∉ acc.map Prod.fst) →
    buildPartial attrs fields acc =
      .ok (acc ++ fields.map fun f =>
        (JValue.jstr (snakeToCamel f), (attrs f).getD .jnull)) := by
  intro fields
  induction fields with
  | nil => intro acc _ _ _; simp [buildPartial]
  | cons f rest ih =>
    intro acc hsome hnd hfresh
    cases hv : attrs f with
    | none =>
      have := hsome f (by simp)
      rw [hv] at this
      simp at this
    | some v =>
      simp only [buildPartial, hv]
      rw [jdictSet_of_not_mem _ _ acc (hfresh f (by simp))]
      have hnd' := hnd
      rw [List.map_cons, List.nodup_cons] at hnd'
      have hfresh' : ∀ g ∈ rest,
          (JValue.jstr (snakeToCamel g)) ∉
            (acc ++ [(JValue.jstr (snakeToCamel f), v)]).map Prod.fst := by
        intro g hg
        rw [List.map_append, List.mem_append]
        rintro (hacc | hnewkey)
        · exact hfresh g (by simp [hg]) hacc
        · simp only [List.map_cons, List.map_nil, List.mem_singleton] at hnewkey
          exact hnd'.1 (hnewkey ▸ List.mem_map_of_mem _ hg)
      rw [ih (acc ++ [(JValue.jstr (snakeToCamel f), v)])
        (fun g hg => hsome g (by simp [hg])) hnd'.2 hfresh']
      simp [hv]

/-- C6: the partial-update body builder of `Client.update_dataset`
translates each changed field name by the deterministic snake-case →
camelCase function (in particular friendly_name ↦ friendlyName and
default_table_expiration_ms ↦ defaultTableExpirationMs), and — when all
changed names are known attributes with pairwise-distinct camelCase
forms — the built body holds exactly the changed fields under those
camelCase keys with their current values, in order. -/
theorem update_dataset_partial_body (attrs : String → Option JValue)
    (fields : List String)
    (hknown : ∀ f ∈ fields, (attrs f).isSome = true)
    (hnd : List.Nodup (fields.map fun f => JValue.jstr (snakeToCamel f))) :
    snakeToCamel "friendly_name" = "friendlyName" ∧
    snakeToCamel "default_table_expiration_ms" = "defaultTableExpirationMs" ∧
    buildPartial attrs fields [] =
      .ok (fields.map fun f =>
        (JValue.jstr (snakeToCamel f), (attrs f).getD .jnull)) := by
  refine ⟨by decide, by decide, ?_⟩
  have h := buildPartial_ok attrs fields [] hknown hnd (by simp)
  simpa using h

/-- C6 (witness): the body-builder theorem at the spec's concrete
example. -/
theorem update_dataset_partial_body_witness :
    buildPartial
      (fun f => if f = "friendly_name" then some (.jstr "x")
        else if f = "default_table_expiration_ms" then some (.jnum 5000)
        else none)
      ["friendly_name", "default_table_expiration_ms"] [] =
    .ok [(.jstr "friendlyName", .jstr "x"),
         (.jstr "defaultTableExpirationMs", .jnum 5000)] :=
  ((update_dataset_partial_body
      (fun f => if f = "friendly_name" then some (.jstr "x")
        else if f = "default_table_expiration_ms" then some (.jnum 5000)
        else none)
      ["friendly_name", "default_table_expiration_ms"]
      (by decide) (by decide)).2.2).trans (congrArg Except.ok (by decide))

/-- C7: `update_dataset` emits an If-Match header carrying exactly the
dataset's etag when, and only when, the etag is non-null; with a null
etag no conditional header is emitted at all. -/
theorem update_dataset_if_match (e : JValue) (h : e ≠ .jnull) :
    updateHeaders e = some [(.jstr "If-Match", e)] ∧
    updateHeaders .jnull = none := by
  constructor
  · simp [updateHeaders, h]
  · simp [updateHeaders]

/-- C7 (witness): etag "abc" yields exactly the If-Match header "abc". -/
theorem update_dataset_if_match_witness :
    updateHeaders (.jstr "abc") = some [(.jstr "If-Match", .jstr "abc")] :=
  (update_dataset_if_match (.jstr "abc") (by decide)).1

/-- The body loop fails on the first changed name that is not a known
attribute, whatever has been accumulated so far. -/
theorem buildPartial_unknown (attrs : String → Option JValue) :
    ∀ (fields : List String) (f : String),
    fields.find? (fun g => (attrs g).isNone) = some f →
    ∀ acc, buildPartial attrs fields acc = .error (.unknownField f) := by
  intro fields
  induction fields with
  | nil => intro f hfind; simp [List.find?] at hfind
  | cons g rest ih =>
    intro f hfind acc
    rw [List.find?] at hfind
    cases hv : attrs g with
    | none =>
      simp only [hv, Option.isNone_none] at hfind
      simp only [Option.some.injEq] at hfind
      subst hfind
      rw [buildPartial, hv]
    | some v =>
      simp only [hv, Option.isNone_some] at hfind
      rw [buildPartial, hv]
      exact ih f hfind _

/-- C8: if some name in the changed-field list is not a known attribute
of the dataset, `update_dataset`'s body builder fails with the
unknown-field ValueError for the first such name — no body is ever
produced. -/
theorem update_dataset_unknown_field (attrs : String → Option JValue)
    (fields : List String) (f : String)
    (hfind : fields.find? (fun g => (attrs g).isNone) = some f) :
    buildPartial attrs fields [] = .error (.unknownField f) :=
  buildPartial_unknown attrs fields f hfind []

/-- C8 (witness): a changed-field list naming an attribute the dataset
does not have fails with the unknown-field error. -/
theorem update_dataset_unknown_field_witness :
    buildPartial (fun _ => none) ["bogus_field"] [] =
      .error (.unknownField "bogus_field") :=
  update_dataset_unknown_field (fun _ => none) ["bogus_field"] "bogus_field" rfl

/-- Python `d.clear()`: the dict becomes empty whatever it held. -/
def pyDictClear (_ : List (JValue × JValue)) : List (JValue × JValue) := []

/-- Python `float(x)` applied to a wire value, kept symbolic (see module
docstring). -/
def pyFloat (v : JValue) : JValue := .jfloatOf v

/-- Python `int(x)` applied to a wire value, kept symbolic. -/
def pyInt (v : JValue) : JValue := .jintOf v

/-- Python `d.pop(k, default)`: the value bound to `k` (or the default
when absent) together with the dict without `k`. -/
def jdictPop (d : List (JValue × JValue)) (k dflt : JValue) :
    JValue × List (JValue × JValue) :=
  match JValue.jlookup d k with
  | some v => (v, d.filter fun p => decide (p.1 ≠ k))
  | none => (dflt, d)

/-- Python `if k in d: d[k] = g(d[k])` — the in-place wire-value
coercions of `_set_properties`. -/
def convertKey (d : List (JValue × JValue)) (k : JValue) (g : JValue → JValue) :
    List (JValue × JValue) :=
  match JValue.jlookup d k with
  | some v => JValue.jdictSet d k (g v)
  | none => d

/-- Python `d.update(e)`: assign every binding of `e` into `d` in order. -/
def jdictUpdate (d e : List (JValue × JValue)) : List (JValue × JValue) :=
  e.foldl (fun acc kv => JValue.jdictSet acc kv.1 kv.2) d

/-- `Table._set_properties` (`table.py`): clear the property bag, copy
the response, pop `schema` (parsing it into `self.schema`; the popped
default decodes to the empty schema), coerce the three time fields to
float, then update the cleared bag from the cleaned response.  `none`
models a raised exception while parsing the schema (the bag then stays
cleared and empty). -/
def tableSetProperties (props apiResponse : List (JValue × JValue)) :
    Option (List (JValue × JValue) × List SchemaField) :=
  let cleared := pyDictClear props
  let cleaned := apiResponse
  let popped := jdictPop cleaned (.jstr "schema") (.jobj [(.jstr "fields", .jarr [])])
  match parseSchemaResource popped.1 with
  | none => none
  | some schema =>
      let cleaned := popped.2
      let cleaned := convertKey cleaned (.jstr "creationTime") pyFloat
      let cleaned := convertKey cleaned (.jstr "lastModifiedTime") pyFloat
      let cleaned := convertKey cleaned (.jstr "expirationTime") pyFloat
      some (jdictUpdate cleared cleaned, schema)

/-- `google.cloud.bigquery.dataset.AccessEntry`: role, entity type and
entity id, validated at construction. -/
inductive AccessEntry : Type where
  | mk (role entity_type entity_id : JValue)
deriving DecidableEq, Repr

/-- `AccessEntry.ENTITY_TYPES` (`dataset.py`). -/
def ENTITY_TYPES : List JValue :=
  [.jstr "userByEmail", .jstr "groupByEmail", .jstr "domain",
   .jstr "specialGroup", .jstr "view"]

/-- `AccessEntry.__init__` (`dataset.py`): rejects unknown entity types,
a view with a role, and a non-view without a role; `none` models the
raised ValueError. -/
def mkAccessEntry (role entity_type entity_id : JValue) : Option AccessEntry :=
  if entity_type ∉ ENTITY_TYPES then none
  else if entity_type = .jstr "view" then
    if role ≠ .jnull then none
    else some (.mk role entity_type entity_id)
  else if role = .jnull then none
  else some (.mk role entity_type entity_id)

/-- The loop body of `Dataset._parse_access_entries`: pop `role`
(defaulting to None), `popitem()` the remaining last-inserted binding as
(entity_type, entity_id) — raising on an empty dict — and reject any
further leftover keys. -/
def parseAccessEntry (entry : List (JValue × JValue)) : Option AccessEntry :=
  let popped := jdictPop entry (.jstr "role") .jnull
  match popped.2.getLast? with
  | none => none
  | some (entity_type, entity_id) =>
      if popped.2.dropLast.length ≠ 0 then none
      else mkAccessEntry popped.1 entity_type entity_id

/-- `Dataset._parse_access_entries` over the `access` array; every
element must be a mapping. -/
def parseAccessList : List JValue → Option (List AccessEntry)
  | [] => some []
  | .jobj e :: rest => do
      let a ← parseAccessEntry e
      let as ← parseAccessList rest
      pure (a :: as)
  | _ :: _ => none

/-- `Dataset._set_properties` (`dataset.py`): clear the bag, pop
`access` (default the empty tuple) and parse it into access entries,
coerce the two time fields to float and `defaultTableExpirationMs` to
int, then update the cleared bag from the cleaned response. -/
def datasetSetProperties (props apiResponse : List (JValue × JValue)) :
    Option (List (JValue × JValue) × List AccessEntry) :=
  let cleared := pyDictClear props
  let cleaned := apiResponse
  let popped := jdictPop cleaned (.jstr "access") (.jarr [])
  match popped.1 with
  | .jarr lst =>
      match parseAccessList lst with
      | none => none
      | some aes =>
          let cleaned := popped.2
          let cleaned := convertKey cleaned (.jstr "creationTime") pyFloat
          let cleaned := convertKey cleaned (.jstr "lastModifiedTime") pyFloat
          let cleaned := convertKey cleaned (.jstr "defaultTableExpirationMs") pyInt
          some (jdictUpdate cleared cleaned, aes)
  | _ => none

/-- A key found by `jlookup` is among the dict's keys. -/
theorem jlookup_mem_keys {d : List (JValue × JValue)} {k v : JValue}
    (h : JValue.jlookup d k = some v) : k ∈ d.map Prod.fst := by
  induction d with
  | nil => simp [JValue.jlookup] at h
  | cons p rest ih =>
    obtain ⟨k', v'⟩ := p
    rw [JValue.jlookup] at h
    split at h
    · rename_i he
      simp [he]
    · simp [ih h]

/-- Keys after an assignment: the old keys plus possibly the new one. -/
theorem jdictSet_keys_mem (k v x : JValue) :
    ∀ d : List (JValue × JValue),
    x ∈ (JValue.jdictSet d k v).map Prod.fst → x ∈ d.map Prod.fst ∨ x = k := by
  intro d
  induction d with
  | nil => intro h; simp [JValue.jdictSet] at h; exact Or.inr h
  | cons p rest ih =>
    obtain ⟨k', v'⟩ := p
    rw [JValue.jdictSet]
    split
    · intro h
      simp only [List.map_cons, List.mem_cons] at h
      rcases h with h | h
      · exact Or.inr h
      · exact Or.inl (by simp [h])
    · intro h
      simp only [List.map_cons, List.mem_cons] at h
      rcases h with h | h
      · exact Or.inl (by simp [h])
      · rcases ih h with h' | h'
        · exact Or.inl (by simp [h'])
        · exact Or.inr h'

/-- Keys after `d.update(e)` come from `d` or from `e`. -/
theorem jdictUpdate_keys_mem (x : JValue) :
    ∀ e d : List (JValue × JValue),
    x ∈ (jdictUpdate d e).map Prod.fst →
      x ∈ d.map Prod.fst ∨ x ∈ e.map Prod.fst := by
  intro e
  induction e with
  | nil => intro d h; exact Or.inl h
  | cons kv rest ih =>
    intro d h
    rw [jdictUpdate, List.foldl_cons] at h
    rcases ih (JValue.jdictSet d kv.1 kv.2) h with h' | h'
    · rcases jdictSet_keys_mem kv.1 kv.2 x d h' with h'' | h''
      · exact Or.inl h''
      · exact Or.inr (by simp [h''])
    · exact Or.inr (by simp [h'])

/-- The in-place coercion `if k in d: d[k] = g(d[k])` leaves the key set
within the original keys. -/
theorem convertKey_keys_mem (x k : JValue) (g : JValue → JValue)
    (d : List (JValue × JValue)) :
    x ∈ (convertKey d k g).map Prod.fst → x ∈ d.map Prod.fst := by
  rw [convertKey]
  cases hl : JValue.jlookup d k with
  | none => exact id
  | some v =>
    intro h
    rcases jdictSet_keys_mem k (g v) x d h with h' | h'
    · exact h'
    · exact h' ▸ jlookup_mem_keys hl

/-- Popping a key only removes bindings. -/
theorem jdictPop_snd_keys_mem (x k dflt : JValue) (d : List (JValue × JValue)) :
    x ∈ (jdictPop d k dflt).2.map Prod.fst → x ∈ d.map Prod.fst := by
  rw [jdictPop]
  cases JValue.jlookup d k with
  | none => exact id
  | some v =>
    intro h
    simp only [List.mem_map] at h ⊢
    obtain ⟨p, hp, rfl⟩ := h
    exact ⟨p, List.mem_of_mem_filter hp, rfl⟩

/-- C9: `_set_properties` (on both `Table` and `Dataset`) replaces the
property bag outright — the result is the same whatever the bag held
before — and on success every key of the new bag comes from the new
server response, so nothing set by an earlier fetch or local mutation
survives. -/
theorem set_properties_replaces (old1 old2 resp : List (JValue × JValue)) :
    tableSetProperties old1 resp = tableSetProperties old2 resp ∧
    datasetSetProperties old1 resp = datasetSetProperties old2 resp ∧
    (∀ out sch, tableSetProperties old1 resp = some (out, sch) →
      ∀ k ∈ out.map Prod.fst, k ∈ resp.map Prod.fst) ∧
    (∀ out aes, datasetSetProperties old1 resp = some (out, aes) →
      ∀ k ∈ out.map Prod.fst, k ∈ resp.map Prod.fst) := by
  refine ⟨rfl, rfl, ?_, ?_⟩
  · intro out sch hout k hk
    rw [tableSetProperties] at hout
    split at hout
    · exact absurd hout (by simp)
    · simp only [Option.some.injEq, Prod.mk.injEq] at hout
      have hk' := hout.1 ▸ hk
      have h1 := jdictUpdate_keys_mem k _ (pyDictClear old1) hk'
      rcases h1 with h | h
      · simp [pyDictClear] at h
      · have h2 := convertKey_keys_mem k _ pyFloat _ h
        have h3 := convertKey_keys_mem k _ pyFloat _ h2
        have h4 := convertKey_keys_mem k _ pyFloat _ h3
        exact jdictPop_snd_keys_mem k _ _ resp h4
  · intro out aes hout k hk
    rw [datasetSetProperties] at hout
    split at hout
    · split at hout
      · exact absurd hout (by simp)
      · simp only [Option.some.injEq, Prod.mk.injEq] at hout
        have hk' := hout.1 ▸ hk
        have h1 := jdictUpdate_keys_mem k _ (pyDictClear old1) hk'
        rcases h1 with h | h
        · simp [pyDictClear] at h
        · have h2 := convertKey_keys_mem k _ pyInt _ h
          have h3 := convertKey_keys_mem k _ pyFloat _ h2
          have h4 := convertKey_keys_mem k _ pyFloat _ h3
          exact jdictPop_snd_keys_mem k _ _ resp h4
    · exact absurd hout (by simp)

/-- C9 (witness): a stale bag and an empty bag produce the same result,
and the key of the new bag at a concrete response comes from the
response. -/
theorem set_properties_replaces_witness :
    tableSetProperties [(.jstr "stale", .jnum 0)] [(.jstr "etag", .jstr "e")] =
      tableSetProperties [] [(.jstr "etag", .jstr "e")] ∧
    (.jstr "etag") ∈ ([((.jstr "etag" : JValue), (.jstr "e" : JValue))].map Prod.fst) :=
  ⟨(set_properties_replaces [(.jstr "stale", .jnum 0)] []
      [(.jstr "etag", .jstr "e")]).1,
   (set_properties_replaces [(.jstr "stale", .jnum 0)] []
      [(.jstr "etag", .jstr "e")]).2.2.1
      [((.jstr "etag" : JValue), (.jstr "e" : JValue))] []
      (by simp [tableSetProperties, jdictPop, convertKey, jdictUpdate,
        pyDictClear, parseSchemaResource, parseFieldList, JValue.jlookup,
        JValue.jdictSet])
      (.jstr "etag") (by simp)⟩
